import Mathlib

/-!
Verification of the `bunanza` observability package: a structured-logging
library (logger factory, context composition, redaction/serialization
utilities) plus a Hono request-observability middleware.

The TypeScript source is shallowly embedded: JavaScript objects become
association lists over `String` keys, property assignment becomes `objInsert`,
object spread / `Object.assign` becomes `mergeP`, mutable response state is
passed explicitly, and the environment (clock, `Math.random`, `process.env`)
is passed as explicit inputs.
-/

namespace Bunanza

/-! ### JavaScript-object model: association lists with assignment semantics -/

/-- The keys of a JS object, in insertion order. -/
def keys {α : Type} (m : List (String × α)) : List String :=
  m.map Prod.fst

/-- JS property assignment `m[k] = v`: replace the value in place if the key
is present, otherwise append the new entry.  JS objects have unique keys, so
replacing the first occurrence is exact. -/
def objInsert {α : Type} : List (String × α) → String → α → List (String × α)
  | [], k, v => [(k, v)]
  | p :: rest, k, v =>
    if p.1 == k then (k, v) :: rest else p :: objInsert rest k v

/-- JS object spread `{...a, ...b}` / `Object.assign(a, b)`: assign every
entry of `b` into `a`, left to right. -/
def mergeP {α : Type} (a b : List (String × α)) : List (String × α) :=
  b.foldl (fun acc p => objInsert acc p.1 p.2) a

/-- Strict `x` if defined else `y`, the shape `??` and lookup fallbacks take. -/
def jsOr {α : Type} : Option α → Option α → Option α
  | some v, _ => some v
  | none, y => y

@[simp]
theorem jsOr_some {α : Type} (v : α) (y : Option α) : jsOr (some v) y = some v := rfl

@[simp]
theorem jsOr_none {α : Type} (y : Option α) : jsOr none y = y := rfl

@[simp]
theorem jsOr_none_right {α : Type} (x : Option α) : jsOr x none = x := by
  cases x <;> rfl

theorem jsOr_assoc {α : Type} (x y z : Option α) :
    jsOr (jsOr x y) z = jsOr x (jsOr y z) := by
  cases x <;> rfl

@[simp]
theorem keys_nil {α : Type} : keys ([] : List (String × α)) = [] := rfl

@[simp]
theorem keys_cons {α : Type} (p : String × α) (rest : List (String × α)) :
    keys (p :: rest) = p.1 :: keys rest := rfl

@[simp]
theorem keys_append {α : Type} (a b : List (String × α)) :
    keys (a ++ b) = keys a ++ keys b := by
  simp [keys]

@[simp]
theorem lookup_objInsert {α : Type} (m : List (String × α)) (k k' : String) (v : α) :
    (objInsert m k v).lookup k' = if k' == k then some v else m.lookup k' := by
  induction m with
  | nil =>
    cases h : k' == k <;> simp [objInsert, List.lookup, h]
  | cons p rest ih =>
    cases h : p.1 == k with
    | true =>
      have hk : p.1 = k := by simpa using h
      cases h' : k' == k with
      | true =>
        have hke : k' = k := by simpa using h'
        simp [objInsert, h, List.lookup, hke]
      | false =>
        have hne2 : (k' == p.1) = false := by rw [hk]; exact h'
        simp [objInsert, h, List.lookup, h', hne2]
    | false =>
      cases h2 : k' == p.1 with
      | true =>
        have hke : k' = p.1 := by simpa using h2
        have h3 : (k' == k) = false := by
          rw [hke]; exact h
        simp [objInsert, h, List.lookup, h2, h3]
      | false =>
        simp [objInsert, h, List.lookup, h2, ih]

theorem mem_keys_objInsert {α : Type} (m : List (String × α)) (k k' : String) (v : α) :
    k' ∈ keys (objInsert m k v) ↔ k' ∈ keys m ∨ k' = k := by
  induction m with
  | nil => simp [objInsert]
  | cons p rest ih =>
    cases h : p.1 == k with
    | true =>
      have hk : p.1 = k := by simpa using h
      simp [objInsert, h, hk]
      tauto
    | false =>
      simp [objInsert, h, ih]
      tauto

theorem lookup_append {α : Type} (l₁ l₂ : List (String × α)) (k : String) :
    (l₁ ++ l₂).lookup k = jsOr (l₁.lookup k) (l₂.lookup k) := by
  induction l₁ with
  | nil => simp [List.lookup]
  | cons p rest ih =>
    by_cases h : k == p.1
    · simp [List.lookup, h]
    · have hf : (k == p.1) = false := by simpa using h
      simp [List.lookup, hf, ih]

theorem lookup_mergeP {α : Type} (a b : List (String × α)) (k : String) :
    (mergeP a b).lookup k = jsOr (b.reverse.lookup k) (a.lookup k) := by
  induction b generalizing a with
  | nil => simp [mergeP]
  | cons p rest ih =>
    have step : mergeP a (p :: rest) = mergeP (objInsert a p.1 p.2) rest := rfl
    rw [step, ih]
    rw [List.reverse_cons, lookup_append]
    by_cases h : k == p.1
    · have hk : k = p.1 := by simpa using h
      cases hrev : rest.reverse.lookup k <;>
        simp [List.lookup, h, hk, jsOr]
    · have hf : (k == p.1) = false := by simpa using h
      cases hrev : rest.reverse.lookup k <;>
        simp [List.lookup, hf, jsOr]

theorem mem_keys_mergeP {α : Type} (a b : List (String × α)) (k : String) :
    k ∈ keys (mergeP a b) ↔ k ∈ keys a ∨ k ∈ keys b := by
  induction b generalizing a with
  | nil => simp [mergeP, keys]
  | cons p rest ih =>
    have step : mergeP a (p :: rest) = mergeP (objInsert a p.1 p.2) rest := rfl
    rw [step]
    rw [ih]
    rw [mem_keys_objInsert]
    simp [keys]
    tauto

theorem lookup_isSome_iff_mem_keys {α : Type} (l : List (String × α)) (k : String) :
    (l.lookup k).isSome ↔ k ∈ keys l := by
  induction l with
  | nil => simp [List.lookup, keys]
  | cons p rest ih =>
    by_cases h : k == p.1
    · have : k = p.1 := by simpa using h
      simp [List.lookup, h, keys, this]
    · have hf : (k == p.1) = false := by simpa using h
      have hne : ¬ k = p.1 := by simpa using h
      simp [List.lookup, hf, keys, ih, hne]

theorem lookup_reverse_of_nodup {α : Type} (l : List (String × α)) (k : String)
    (h : (keys l).Nodup) : l.reverse.lookup k = l.lookup k := by
  induction l with
  | nil => simp
  | cons p rest ih =>
    rw [keys_cons] at h
    have hk : p.1 ∉ keys rest := (List.nodup_cons.mp h).1
    have hrest : (keys rest).Nodup := (List.nodup_cons.mp h).2
    rw [List.reverse_cons, lookup_append, ih hrest]
    cases he : k == p.1 with
    | true =>
      have hke : k = p.1 := by simpa using he
      have hnone : rest.lookup k = none := by
        cases hcase : rest.lookup k with
        | none => rfl
        | some v =>
          exfalso
          apply hk
          rw [← lookup_isSome_iff_mem_keys, ← hke, hcase]
          rfl
      simp [hnone, List.lookup, he]
    | false =>
      simp [List.lookup, he]

theorem lookup_eq_some_of_mem_nodup {α : Type} (l : List (String × α)) (k : String)
    (v : α) (h : (keys l).Nodup) (hm : (k, v) ∈ l) : l.lookup k = some v := by
  induction l with
  | nil => simp at hm
  | cons p rest ih =>
    rw [keys_cons] at h
    have hk : p.1 ∉ keys rest := (List.nodup_cons.mp h).1
    have hrest : (keys rest).Nodup := (List.nodup_cons.mp h).2
    rcases List.mem_cons.mp hm with hm1 | hm2
    · simp [← hm1, List.lookup]
    · have hne : (k == p.1) = false := by
        simp only [beq_eq_false_iff_ne, ne_eq]
        intro hkk
        apply hk
        rw [← hkk, ← lookup_isSome_iff_mem_keys, ih hrest hm2]
        rfl
      simp [List.lookup, hne, ih hrest hm2]

/-! ### JavaScript values

A JS runtime value, as far as the error utilities observe it.  An object
carries: whether it is a native `Error` instance (`instanceof Error`), the
values reachable through non-enumerable own properties or the prototype for
the three properties the serializer reads by name (`name`, `message`,
`stack` — on a native `Error` these are not enumerable, so a `for...in`
loop does not see them), and its own enumerable properties in insertion
order (what `for...in` plus `hasOwnProperty` iterates). -/

inductive JSValue : Type where
  | vUndefined : JSValue
  | vNull : JSValue
  | vStr (s : String) : JSValue
  | vNum (n : Int) : JSValue
  | vBool (b : Bool) : JSValue
  | vObj (isErrorInstance : Bool) (hiddenName hiddenMessage hiddenStack : Option String)
      (ownEnum : List (String × JSValue)) : JSValue

/-- JS property read `obj.key`: an own enumerable property shadows the
hidden (non-enumerable / prototype) value; absent both, `undefined`. -/
def propAccess (own : List (String × JSValue)) (hidden : Option String)
    (key : String) : JSValue :=
  match own.lookup key with
  | some v => v
  | none =>
    match hidden with
    | some s => .vStr s
    | none => .vUndefined

/-- JS truthiness of a value, as used by `if (err.stack)`. -/
def truthy : JSValue → Bool
  | .vUndefined => false
  | .vNull => false
  | .vStr s => s != ""
  | .vNum n => n != 0
  | .vBool b => b
  | .vObj _ _ _ _ _ => true

/-- JS `String.prototype.toLowerCase()` on the ASCII header/key strings this
library lower-cases, character by character. -/
def toLowerCase (s : String) : String :=
  (s.toList.map Char.toLower).asString

/-- JS `String(value)` coercion (plain objects print `[object Object]`). -/
def jsString : JSValue → String
  | .vUndefined => "undefined"
  | .vNull => "null"
  | .vStr s => s
  | .vNum n => toString n
  | .vBool b => if b then "true" else "false"
  | .vObj _ _ _ _ _ => "[object Object]"

/-! ### `src/utils/errors.ts` -/

/-- `isError`: `err instanceof Error || (typeof err === 'object' && err !== null
&& 'message' in err)`.  The `in` operator sees own properties (enumerable or
not) and the prototype chain; a native `Error` always satisfies the first
disjunct. -/
def isError : JSValue → Bool
  | .vObj isErrorInstance _ hiddenMessage _ own =>
    isErrorInstance || own.any (fun p => p.1 == "message") || hiddenMessage.isSome
  | _ => false

/-- `errorSerializer`: non-error values become `{error: String(value)}`;
error-like values start from `{type: err.name, message: err.message}`, gain
`stack` when `err.stack` is truthy, then every own enumerable property other
than `name`/`message`/`stack` is assigned in.  `isError` is true only on
objects, so the non-object fallthrough inside the error branch is dead. -/
def errorSerializer (value : JSValue) : List (String × JSValue) :=
  if isError value then
    match value with
    | .vObj _ hiddenName hiddenMessage hiddenStack own =>
      let s0 : List (String × JSValue) :=
        [("type", propAccess own hiddenName "name"),
         ("message", propAccess own hiddenMessage "message")]
      let s1 :=
        if truthy (propAccess own hiddenStack "stack") then
          objInsert s0 "stack" (propAccess own hiddenStack "stack")
        else s0
      own.foldl
        (fun acc p =>
          if p.1 == "name" || p.1 == "message" || p.1 == "stack" then acc
          else objInsert acc p.1 p.2)
        s1
    | _ => [("error", .vStr (jsString value))]
  else
    [("error", .vStr (jsString value))]

/-- A fold of assignments that skips entries satisfying `q` is a merge of
the non-skipped entries. -/
theorem foldl_objInsert_skip {α : Type} (q : (String × α) → Bool)
    (l : List (String × α)) (s : List (String × α)) :
    l.foldl (fun acc p => if q p then acc else objInsert acc p.1 p.2) s
      = mergeP s (l.filter (fun p => !q p)) := by
  induction l generalizing s with
  | nil => rfl
  | cons p rest ih =>
    cases hq : q p with
    | true =>
      simp only [List.foldl_cons, hq, if_pos, List.filter_cons, Bool.not_true,
        Bool.false_eq_true, if_false]
      exact ih s
    | false =>
      simp only [List.foldl_cons, hq, Bool.false_eq_true, if_false,
        List.filter_cons, Bool.not_false, if_pos]
      rw [ih]
      rfl

theorem lookup_eq_none_of_not_mem_keys {α : Type} (l : List (String × α))
    (k : String) (h : k ∉ keys l) : l.lookup k = none := by
  cases hc : l.lookup k with
  | none => rfl
  | some v =>
    exact absurd ((lookup_isSome_iff_mem_keys l k).mp (by rw [hc]; rfl)) h

@[simp]
theorem keys_reverse {α : Type} (l : List (String × α)) :
    keys l.reverse = (keys l).reverse := by
  simp [keys]

/-- A filter on keys that keeps every `k`-keyed entry does not change
what `lookup k` sees. -/
theorem lookup_filter_of_kept {α : Type} (l : List (String × α))
    (q : (String × α) → Bool) (k : String)
    (hk : ∀ p : String × α, p.1 = k → q p = true) :
    (l.filter q).lookup k = l.lookup k := by
  induction l with
  | nil => rfl
  | cons p rest ih =>
    cases he : k == p.1 with
    | true =>
      have hke : k = p.1 := by simpa using he
      have hq : q p = true := hk p hke.symm
      simp [List.filter_cons, hq, List.lookup, he]
    | false =>
      cases hq : q p with
      | true => simp [List.filter_cons, hq, List.lookup, he, ih]
      | false => simp [List.filter_cons, hq, List.lookup, he, ih]

/-- A filter on keys that drops every `k`-keyed entry leaves no `k` key. -/
theorem not_mem_keys_filter {α : Type} (l : List (String × α))
    (q : (String × α) → Bool) (k : String)
    (hk : ∀ p : String × α, p.1 = k → q p = false) :
    k ∉ keys (l.filter q) := by
  intro hmem
  rcases List.mem_map.mp hmem with ⟨p, hp, hfst⟩
  have hq : q p = true := List.of_mem_filter hp
  rw [hk p hfst] at hq
  exact Bool.false_ne_true hq

theorem keys_filter_nodup {α : Type} (l : List (String × α))
    (q : (String × α) → Bool) (h : (keys l).Nodup) :
    (keys (l.filter q)).Nodup := by
  have hsub : List.Sublist (keys (l.filter q)) (keys l) :=
    (List.filter_sublist l).map Prod.fst
  exact h.sublist hsub

/-! ### `src/constants.ts` -/

def DEFAULT_REDACT_PATHS : List String :=
  ["password", "token", "secret", "credentials", "apiKey", "authorization",
   "cookie", "sessionId"]

/-- The six level names of the `LogLevel` union type. -/
def logLevelNames : List String :=
  ["fatal", "error", "warn", "info", "debug", "trace"]

/-- `DEFAULT_LEVEL = (process.env.LOG_LEVEL as LogLevel) || 'info'`.
The environment read is passed in (`none` = variable unset).  The cast is a
compile-time assertion only: at runtime any non-falsy string passes through,
and `||` falls back to `'info'` exactly when the value is `undefined` or the
empty string. -/
def DEFAULT_LEVEL (envLogLevel : Option String) : String :=
  match envLogLevel with
  | some s => if s = "" then "info" else s
  | none => "info"

/-! ### Structured log payload values

Values that appear in log payloads and logger bindings: strings, JS numbers
(modelled as rationals — the nanosecond arithmetic of `formatDuration` is
exact well inside double precision), raw JS values (the `err` field), and
flat string maps (redacted headers, query parameters). -/

inductive PVal : Type where
  | str (s : String)
  | num (q : ℚ)
  | js (v : JSValue)
  | strMap (m : List (String × String))

/-! ### The logger handle

A pino-backed logger as the library observes it: a minimum level and the
accumulated child bindings.  `child` (pino's primitive) merges new bindings
over the existing ones; a log call `l.info(fields, msg)` writes the bindings
and then the fields, so on a key collision the call's fields win. -/

structure Logger where
  level : String
  bindings : List (String × PVal)

/-- pino's `logger.child(bindings)`: a fresh handle with merged bindings. -/
def Logger.child (l : Logger) (bindings : List (String × PVal)) : Logger :=
  ⟨l.level, mergeP l.bindings bindings⟩

/-- The fields of the record emitted by a log call with payload `fields`. -/
def entryFields (l : Logger) (fields : List (String × PVal)) : List (String × PVal) :=
  mergeP l.bindings fields

/-! ### `src/utils/context.ts` -/

/-- `createContextLogger(logger, context) = logger.child(context)`. -/
def createContextLogger (logger : Logger) (context : List (String × PVal)) : Logger :=
  logger.child context

/-- `withContext`, installed on every logger by `createLogger`:
`function(context) { return createContextLogger(this, context) }`. -/
def withContext (logger : Logger) (context : List (String × PVal)) : Logger :=
  createContextLogger logger context

/-- The base-36 digit alphabet `Number.prototype.toString(36)` draws from. -/
def base36Digits : List Char := "0123456789abcdefghijklmnopqrstuvwxyz".toList

/-- Model of `Math.random().toString(36)`.  The random draw is represented by
the base-36 expansion of its fractional part with trailing zeros trimmed,
exactly the digits JS prints after `"0."`; a draw of `0` prints `"0"` with no
fractional part at all. -/
def randToString36 (digits : List Char) : String :=
  if digits.isEmpty then "0" else "0." ++ digits.asString

/-- JS `String.prototype.substring(a, b)`: the characters from index `a`
(inclusive) to `b` (exclusive), clamped to the string's length. -/
def jsSubstring (s : String) (a b : Nat) : String :=
  ((s.toList.drop a).take (b - a)).asString

/-- `generateRequestId()`:
`` `req_${Date.now()}_${Math.random().toString(36).substring(2, 15)}` ``.
The clock and the random draw are passed in. -/
def generateRequestId (nowMs : Nat) (randDigits : List Char) : String :=
  "req_" ++ toString nowMs ++ "_" ++ jsSubstring (randToString36 randDigits) 2 15

/-- `withRequestContext(logger, requestId?)`: attaches
`{requestId: requestId || generateRequestId()}` (`||`, so an explicitly
empty id is also replaced by a generated one). -/
def withRequestContext (logger : Logger) (requestId : Option String)
    (nowMs : Nat) (randDigits : List Char) : Logger :=
  let generatedRequestId :=
    match requestId with
    | some r => if r = "" then generateRequestId nowMs randDigits else r
    | none => generateRequestId nowMs randDigits
  createContextLogger logger [("requestId", .str generatedRequestId)]

/-- `withUserContext(logger, userId)`. -/
def withUserContext (logger : Logger) (userId : String) : Logger :=
  createContextLogger logger [("userId", .str userId)]

/-- `withTraceContext(logger, traceId)`. -/
def withTraceContext (logger : Logger) (traceId : String) : Logger :=
  createContextLogger logger [("traceId", .str traceId)]

/-! ### Logger options, `src/config/defaults.ts` and `src/logger.ts`

Option records model presence: a `none` field is a key the caller did not
supply, so JS object spread leaves the default in place.  (Passing an
explicit `undefined` value, which spread would copy, is not modelled.) -/

structure RedactOptions where
  paths : List String
  remove : Option Bool := none
  censor : Option String := none

/-- `redact?: string[] | RedactOptions`. -/
inductive RedactSetting where
  | plain (paths : List String)
  | withOpts (o : RedactOptions)

structure Formatters where
  levelFormatter : Option (String → ℚ → List (String × JSValue)) := none
  bindingsFormatter : Option (List (String × PVal) → List (String × PVal)) := none
  logFormatter : Option (List (String × PVal) → List (String × PVal)) := none

structure LoggerOptions where
  level : Option String := none
  timestamp : Option Bool := none
  formatters : Option Formatters := none
  redact : Option RedactSetting := none
  serializers : Option (List (String × (JSValue → List (String × JSValue)))) := none
  base : Option (Option (List (String × PVal))) := none
  messageKey : Option String := none
  errorKey : Option String := none

/-- The default level formatter `(label) => ({ level: label })`. -/
def defaultLevelFormatter : String → ℚ → List (String × JSValue) :=
  fun label _ => [("level", .vStr label)]

/-- `src/config/defaults.ts` `defaultOptions`, parameterized by the
`LOG_LEVEL` environment read that `DEFAULT_LEVEL` captured at load time. -/
def defaultOptions (envLogLevel : Option String) : LoggerOptions where
  level := some (DEFAULT_LEVEL envLogLevel)
  timestamp := some true
  formatters := some { levelFormatter := some defaultLevelFormatter }
  redact := some (.withOpts { paths := DEFAULT_REDACT_PATHS, remove := some true })
  serializers := some [("error", errorSerializer)]
  base := some none
  messageKey := some "msg"
  errorKey := some "error"

/-- The merged options `{...defaultOptions, ...options}` built inside
`createLogger`: key-by-key, a supplied key fully replaces the default. -/
def createLoggerOptions (envLogLevel : Option String) (options : LoggerOptions) :
    LoggerOptions where
  level := jsOr options.level (defaultOptions envLogLevel).level
  timestamp := jsOr options.timestamp (defaultOptions envLogLevel).timestamp
  formatters := jsOr options.formatters (defaultOptions envLogLevel).formatters
  redact := jsOr options.redact (defaultOptions envLogLevel).redact
  serializers := jsOr options.serializers (defaultOptions envLogLevel).serializers
  base := jsOr options.base (defaultOptions envLogLevel).base
  messageKey := jsOr options.messageKey (defaultOptions envLogLevel).messageKey
  errorKey := jsOr options.errorKey (defaultOptions envLogLevel).errorKey

/-- `createLogger(options)`: pino is constructed from the merged options; the
handle starts with the `base` bindings (defaulted to `null`, i.e. none) and
carries the merged level.  `withContext` is the module-level function above. -/
def createLogger (envLogLevel : Option String) (options : LoggerOptions) : Logger :=
  let mergedOptions := createLoggerOptions envLogLevel options
  ⟨mergedOptions.level.getD "info", (mergedOptions.base.getD none).getD []⟩

/-! ### `src/middleware/hono/utils.ts` -/

/-- `formatDuration(startTime)`: nanosecond hrtime difference converted to
milliseconds.  Start and end timestamps are explicit inputs. -/
def formatDuration (startTime endTime : Nat) : ℚ :=
  ((endTime : ℚ) - (startTime : ℚ)) / 1000000

/-- `getHeaders(headers, redactHeaders)`: lower-case each key; if the
lower-cased key is in the deny-list (`redactHeaders.includes`, an exact
string-membership test) assign `'[REDACTED]'`, otherwise assign the
original value; assignments build a fresh object. -/
def getHeaders (headers : List (String × String)) (redactHeaders : List String) :
    List (String × String) :=
  headers.foldl
    (fun sanitizedHeaders p =>
      let lowerKey := toLowerCase p.1
      if lowerKey ∈ redactHeaders then
        objInsert sanitizedHeaders lowerKey "[REDACTED]"
      else
        objInsert sanitizedHeaders lowerKey p.2)
    []

/-- ASCII alphabetic, the required first character of a URL scheme. -/
def isAsciiAlpha (c : Char) : Bool :=
  (('a' ≤ c) && (c ≤ 'z')) || (('A' ≤ c) && (c ≤ 'Z'))

/-- Characters allowed after the first in a URL scheme. -/
def isSchemeChar (c : Char) : Bool :=
  isAsciiAlpha c || c.isDigit || c == '+' || c == '-' || c == '.'

/-- Consume `scheme-char* ':'` and return the remainder. -/
def consumeSchemeRest : List Char → Option (List Char)
  | [] => none
  | c :: cs => if c == ':' then some cs else
      if isSchemeChar c then consumeSchemeRest cs else none

/-- Split a character list on a separator; like `String.splitOn`, the empty
input yields one empty group. -/
def splitOnChar (sep : Char) : List Char → List (List Char)
  | [] => [[]]
  | c :: cs =>
    if c == sep then [] :: splitOnChar sep cs
    else
      match splitOnChar sep cs with
      | [] => [[c]]
      | g :: gs => (c :: g) :: gs

/-- One `key=value` search-parameter segment: the key is everything before
the first `=`, the value everything after it (empty when there is no `=`). -/
def queryPairOfSegment (part : List Char) : String × String :=
  let k := part.takeWhile (fun ch => ch != '=')
  let v :=
    match part.dropWhile (fun ch => ch != '=') with
    | [] => []
    | _ :: t => t
  (k.asString, v.asString)

/-- Model of the WHATWG `new URL(url)` constructor as far as the middleware
observes it: with no base URL, parsing succeeds only when the input starts
with a scheme (`alpha (alphanumeric | '+' | '-' | '.')* ':'`) — in
particular a bare path such as `/users?x=1` throws — and on success the
search-parameter pairs are the `&`-separated `key=value` segments between
the first `?` and the following `#` (empty segments skipped; percent-decoding
is elided, no claim depends on it).  `none` models the thrown `TypeError`. -/
def parseUrlQueryPairs (url : String) : Option (List (String × String)) :=
  match url.toList with
  | [] => none
  | c :: cs =>
    if isAsciiAlpha c then
      match consumeSchemeRest cs with
      | none => none
      | some rest =>
        let afterQ := rest.dropWhile (fun ch => ch != '?')
        let queryChars :=
          match afterQ with
          | [] => []
          | _ :: t => t.takeWhile (fun ch => ch != '#')
        some ((splitOnChar '&' queryChars).filterMap
          (fun part =>
            if part.isEmpty then none else some (queryPairOfSegment part)))
    else none

/-- `getQueryParams(url)`: `new URL(url).searchParams` iterated into a fresh
object, last occurrence of a key winning.  An unparseable URL makes the
function throw, modelled by `Except.error`. -/
def getQueryParams (url : String) : Except String (List (String × String)) :=
  match parseUrlQueryPairs url with
  | none => .error "TypeError: Invalid URL"
  | some pairs =>
    .ok (pairs.foldl (fun params p => objInsert params p.1 p.2) [])

/-! ### `src/middleware/hono/types.ts`, `config.ts` and `index.ts` -/

/-- `includeHeaders?: boolean | string[]` (`notSet` = key absent /
`undefined`). -/
inductive IncludeHeaders where
  | notSet
  | flag (b : Bool)
  | allow (xs : List String)

/-- JS truthiness of the `includeHeaders` value: any array is truthy. -/
def IncludeHeaders.truthyB : IncludeHeaders → Bool
  | .notSet => false
  | .flag b => b
  | .allow _ => true

/-- The opaque Hono request context, as read by the middleware: request
method, full URL, path, the `c.req.header()` record, the search-parameter
pairs of the (absolute, framework-supplied) request URL, and the response
status at the moment the middleware resumes after `next()` (Hono's response
state is mutable; `0` stands for an unset status). -/
structure ReqCtx where
  method : String
  url : String
  path : String
  headers : List (String × String)
  urlQuery : List (String × String)

/-- The middleware configuration after `{...defaultOptions, ...options}`:
each field holds what the merged config object holds (`none` = the merged
value is `undefined`, possible only by passing an explicit `undefined`).
Custom formatter callbacks are modelled as total functions of the data they
receive. -/
structure MwConfig where
  includeHeaders : IncludeHeaders := .notSet
  redactHeaders : Option (List String) := none
  includeQueryParams : Option Bool := none
  slowRequestThreshold : Option ℚ := none
  getUserContext : Option (ReqCtx → List (String × PVal)) := none
  formatRequest : Option (ReqCtx → List (String × PVal)) := none
  formatResponse : Option (Nat → ReqCtx → List (String × PVal)) := none
  formatError : Option (JSValue → ReqCtx → List (String × PVal)) := none

namespace Hono

/-- `src/middleware/hono/config.ts` `defaultOptions`. -/
def defaultOptions : MwConfig where
  includeHeaders := .flag false
  includeQueryParams := some false
  slowRequestThreshold := some 1000
  redactHeaders := some
    ["authorization", "cookie", "set-cookie", "x-api-key", "x-auth-token"]

end Hono

/-- The severity of a middleware log call. -/
inductive LogSeverity where
  | info | warn | error
deriving DecidableEq

/-- One call the middleware makes on the request logger. -/
structure LogEntry where
  severity : LogSeverity
  payload : List (String × PVal)
  msg : String

/-- How `next()` settled. -/
inductive NextOutcome where
  | ok
  | threw (e : JSValue)

/-- What one middleware invocation produced: the logger calls in program
order, the final response status, and the re-raised error if any. -/
structure MwResult where
  logs : List LogEntry
  finalStatus : Nat
  thrown : Option JSValue

/-- The payload of the "Incoming request" log call: `{method, url, path}`,
then optionally the redacted (and possibly allow-list-filtered) headers —
Hono's header record is lower-cased and deduplicated by `Object.fromEntries`
before `getHeaders` — then optionally the query parameters, then the merged
user context; a custom `formatRequest` fully replaces the computed payload. -/
def requestLogContext (cfg : MwConfig) (c : ReqCtx) : List (String × PVal) :=
  let logContext0 : List (String × PVal) :=
    [("method", .str c.method), ("url", .str c.url), ("path", .str c.path)]
  let logContext1 :=
    if cfg.includeHeaders.truthyB then
      let headers := getHeaders
        (mergeP [] (c.headers.map (fun p => (toLowerCase p.1, p.2))))
        (cfg.redactHeaders.getD [])
      let filteredHeaders :=
        match cfg.includeHeaders with
        | .allow allowedHeaders => headers.filter (fun p => allowedHeaders.contains p.1)
        | _ => headers
      objInsert logContext0 "headers" (.strMap filteredHeaders)
    else logContext0
  let logContext2 :=
    if cfg.includeQueryParams.getD false then
      objInsert logContext1 "query"
        (.strMap (c.urlQuery.foldl (fun params p => objInsert params p.1 p.2) []))
    else logContext1
  let logContext3 :=
    match cfg.getUserContext with
    | some f => mergeP logContext2 (f c)
    | none => logContext2
  match cfg.formatRequest with
  | some f => f c
  | none => logContext3

/-- The payload of the "Request completed" log call: `{status, duration}`,
fully replaced by a custom `formatResponse` when one is configured. -/
def responseLogContext (cfg : MwConfig) (c : ReqCtx) (status : Nat)
    (duration : ℚ) : List (String × PVal) :=
  match cfg.formatResponse with
  | some f => f status c
  | none => [("status", .num (status : ℚ)), ("duration", .num duration)]

/-- The payload of the "Request failed" log call:
`{err, duration, status, method, path}` (`status` read after the 500
forcing), fully replaced by a custom `formatError` when one is configured. -/
def errorLogContext (cfg : MwConfig) (c : ReqCtx) (e : JSValue) (status : Nat)
    (duration : ℚ) : List (String × PVal) :=
  match cfg.formatError with
  | some f => f e c
  | none =>
    [("err", .js e), ("duration", .num duration), ("status", .num (status : ℚ)),
     ("method", .str c.method), ("path", .str c.path)]

/-- The effective slow-request threshold:
`config.slowRequestThreshold ?? defaultOptions.slowRequestThreshold ?? 1000`. -/
def effectiveThreshold (cfg : MwConfig) : ℚ :=
  cfg.slowRequestThreshold.getD (Hono.defaultOptions.slowRequestThreshold.getD 1000)

/-- The request handler returned by `observabilityMiddleware(options)`, for
one request.  Explicit inputs stand for the environment: the two hrtime
reads, the response status when `next()` settles, and how it settles.  The
log list records every `requestLogger.<level>(payload, msg)` call in program
order: "Incoming request" is logged before `next()` is awaited, then on
normal return the optional slow-request warning is followed by
"Request completed", while on a throw the status is forced to 500 when unset
or below 400, "Request failed" is logged, and the error is re-thrown. -/
def runMiddleware (cfg : MwConfig) (c : ReqCtx) (startTime endTime : Nat)
    (statusAfterNext : Nat) (outcome : NextOutcome) : MwResult :=
  let incoming : LogEntry := ⟨.info, requestLogContext cfg c, "Incoming request"⟩
  match outcome with
  | .ok =>
    let duration := formatDuration startTime endTime
    let threshold := effectiveThreshold cfg
    let slowLogs : List LogEntry :=
      if duration > threshold then
        [⟨.warn, [("duration", .num duration), ("threshold", .num threshold)],
          "Slow request detected"⟩]
      else []
    { logs := incoming :: (slowLogs ++
        [⟨.info, responseLogContext cfg c statusAfterNext duration, "Request completed"⟩]),
      finalStatus := statusAfterNext,
      thrown := none }
  | .threw e =>
    let duration := formatDuration startTime endTime
    let status1 := if statusAfterNext == 0 || statusAfterNext < 400 then 500 else statusAfterNext
    { logs := [incoming,
        ⟨.error, errorLogContext cfg c e status1 duration, "Request failed"⟩],
      finalStatus := status1,
      thrown := some e }

/-! ## Claim theorems -/

/-- C7, counterexample: the code performs no validation of `LOG_LEVEL`.
Setting it to `"banana"` — not one of the six recognized level names —
still overrides the default minimum level, contradicting the claim that the
override happens only for recognized names. -/
theorem DEFAULT_LEVEL_unvalidated_override :
    DEFAULT_LEVEL (some "banana") = "banana" ∧
    "banana" ∉ logLevelNames ∧ "banana" ≠ "info" :=
  ⟨rfl, by decide, by decide⟩

/-- C7 (amended): `LOG_LEVEL` overrides the default minimum level whenever it
is set to any non-empty string — the `as LogLevel` cast checks nothing at
runtime — and the default is `'info'` exactly when the variable is unset or
empty. -/
theorem DEFAULT_LEVEL_spec (s : String) (h : s ≠ "") :
    DEFAULT_LEVEL none = "info" ∧ DEFAULT_LEVEL (some "") = "info" ∧
    DEFAULT_LEVEL (some s) = s :=
  ⟨rfl, rfl, by simp [DEFAULT_LEVEL, h]⟩

/-- Witness for `DEFAULT_LEVEL_spec` at `LOG_LEVEL=debug`. -/
theorem DEFAULT_LEVEL_spec_witness :
    DEFAULT_LEVEL none = "info" ∧ DEFAULT_LEVEL (some "") = "info" ∧
    DEFAULT_LEVEL (some "debug") = "debug" :=
  DEFAULT_LEVEL_spec "debug" (by decide)

/-- The `substring(2, 15)` of the printed random number keeps the first 13
fractional base-36 digits. -/
theorem substring_randToString36 (ds : List Char) :
    jsSubstring (randToString36 ds) 2 15 = (ds.take 13).asString := by
  cases ds with
  | nil => rfl
  | cons d rest =>
    have h2 : (randToString36 (d :: rest)).toList = '0' :: '.' :: d :: rest := by
      show ("0." ++ (d :: rest).asString).data = '0' :: '.' :: d :: rest
      rw [String.data_append,
        show ((d :: rest).asString).data = d :: rest from rfl]
      rfl
    unfold jsSubstring
    rw [h2]
    rfl

/-- C8, counterexample: when `Math.random()` draws a value whose base-36
expansion is empty (the draw `0` prints `"0"`), the generated id is
`req_<millis>_` with an empty suffix — not a suffix of 10 to 13 characters
as claimed. -/
theorem generateRequestId_empty_suffix :
    generateRequestId 1700000000000 [] = "req_1700000000000_" ∧
    (jsSubstring (randToString36 []) 2 15).length = 0 ∧
    ¬ 10 ≤ (jsSubstring (randToString36 []) 2 15).length :=
  ⟨rfl, rfl, by decide⟩

/-- C8 (amended): every generated id is
`req_<decimal millis>_<suffix>` where the suffix consists of lowercase
base-36 characters and has length `min(expansion length, 13)` — hence at
most 13, and at least 10 whenever the random draw's base-36 expansion has at
least 10 fractional digits (the typical case), but shorter for draws whose
expansion terminates early. -/
theorem generateRequestId_spec (nowMs : Nat) (randDigits : List Char)
    (hd : ∀ ch ∈ randDigits, ch ∈ base36Digits) :
    generateRequestId nowMs randDigits
      = "req_" ++ toString nowMs ++ "_" ++ (randDigits.take 13).asString ∧
    (∀ ch ∈ randDigits.take 13, ch ∈ base36Digits) ∧
    (randDigits.take 13).length ≤ 13 ∧
    (10 ≤ randDigits.length → 10 ≤ (randDigits.take 13).length) := by
  refine ⟨?_, ?_, ?_, ?_⟩
  · unfold generateRequestId
    rw [substring_randToString36]
  · intro ch hch
    exact hd ch (List.take_subset 13 randDigits hch)
  · rw [List.length_take]
    omega
  · intro h10
    rw [List.length_take]
    omega

/-- Witness for `generateRequestId_spec` on a 12-digit draw. -/
theorem generateRequestId_spec_witness :
    generateRequestId 1700000000000 ("abcdefghij12".toList)
      = "req_1700000000000_abcdefghij12" :=
  (generateRequestId_spec 1700000000000 ("abcdefghij12".toList) (by decide)).1

/-- C10: `getQueryParams` is partial — it throws (here `Except.error`) for
every input the URL parser rejects, in particular the bare path
`/users?x=1`; for parseable absolute URLs it returns the flat key-to-value
object built by assigning the pairs in order, so the last occurrence of a
repeated key wins (`lookup` agrees with the first hit in the reversed pair
list). -/
theorem getQueryParams_spec :
    getQueryParams "/users?x=1" = .error "TypeError: Invalid URL" ∧
    getQueryParams "http://h/p?a=1&b=2&a=3" = .ok [("a", "3"), ("b", "2")] ∧
    (∀ url, parseUrlQueryPairs url = none →
      getQueryParams url = .error "TypeError: Invalid URL") ∧
    (∀ url pairs, parseUrlQueryPairs url = some pairs →
      getQueryParams url = .ok (mergeP [] pairs) ∧
      ∀ k, (mergeP [] pairs).lookup k = pairs.reverse.lookup k) := by
  refine ⟨rfl, rfl, ?_, ?_⟩
  · intro url h
    simp [getQueryParams, h]
  · intro url pairs h
    constructor
    · simp [getQueryParams, h]
      rfl
    · intro k
      rw [lookup_mergeP]
      simp

/-- Witness for `getQueryParams_spec`: a rejected input and a concrete
last-wins lookup. -/
theorem getQueryParams_spec_witness :
    getQueryParams "nota url?x=1" = .error "TypeError: Invalid URL" ∧
    (mergeP [] [("a", "1"), ("b", "2"), ("a", "3")]).lookup "a"
      = ([("a", "1"), ("b", "2"), ("a", "3")] :
          List (String × String)).reverse.lookup "a" :=
  ⟨getQueryParams_spec.2.2.1 "nota url?x=1" rfl,
   (getQueryParams_spec.2.2.2 "http://h/p?a=1&b=2&a=3"
      [("a", "1"), ("b", "2"), ("a", "3")] rfl).2 "a"⟩

/-- `getHeaders` is the merge, into a fresh object, of the lower-cased and
conditionally redacted entries. -/
theorem getHeaders_eq_mergeP (H : List (String × String)) (D : List String) :
    getHeaders H D = mergeP []
      (H.map (fun p =>
        (toLowerCase p.1, if toLowerCase p.1 ∈ D then "[REDACTED]" else p.2))) := by
  unfold getHeaders mergeP
  rw [List.foldl_map]
  congr 1
  funext acc p
  by_cases h : toLowerCase p.1 ∈ D <;> simp [h]

/-- C3, counterexample: two keys of `H` that differ only in case collapse to
one lower-cased output key holding the value of the later one, so the earlier
key's value is not preserved — the claim fails for
`H = {A: "1", a: "2"}`, `D = {}`. -/
theorem getHeaders_case_collision :
    getHeaders [("A", "1"), ("a", "2")] [] = [("a", "2")] ∧
    (getHeaders [("A", "1"), ("a", "2")] []).lookup "A" = none ∧
    ¬ (getHeaders [("A", "1"), ("a", "2")] []).lookup "a" = some "1" :=
  ⟨rfl, rfl, by decide⟩

/-- C3 (amended): the result's key set is always exactly the lower-cased key
set of `H`, and — provided no two keys of `H` share a lower-cased form —
every key whose lower-cased form is in the deny-list maps to `[REDACTED]`
while every other key keeps its original value.  (When lower-cased keys
collide, the last colliding key's value wins.)  The input mapping is a pure
argument; the result is built fresh by assignments, so `H` is never
modified. -/
theorem getHeaders_spec (H : List (String × String)) (D : List String) :
    (∀ k, k ∈ keys (getHeaders H D) ↔ k ∈ H.map (fun p => toLowerCase p.1)) ∧
    ((H.map (fun p => toLowerCase p.1)).Nodup →
      (∀ p ∈ H, toLowerCase p.1 ∈ D →
        (getHeaders H D).lookup (toLowerCase p.1) = some "[REDACTED]") ∧
      (∀ p ∈ H, toLowerCase p.1 ∉ D →
        (getHeaders H D).lookup (toLowerCase p.1) = some p.2)) := by
  have hkeys : keys (H.map (fun p =>
      (toLowerCase p.1, if toLowerCase p.1 ∈ D then "[REDACTED]" else p.2)))
      = H.map (fun p => toLowerCase p.1) := by
    simp [keys, List.map_map, Function.comp]
  constructor
  · intro k
    rw [getHeaders_eq_mergeP, mem_keys_mergeP, hkeys]
    simp
  · intro hnd
    have hnd' : (keys (H.map (fun p =>
        (toLowerCase p.1, if toLowerCase p.1 ∈ D then "[REDACTED]" else p.2)))).Nodup := by
      rw [hkeys]; exact hnd
    constructor
    · intro p hp hD
      rw [getHeaders_eq_mergeP, lookup_mergeP, lookup_reverse_of_nodup _ _ hnd']
      have hmem : (toLowerCase p.1, "[REDACTED]") ∈ H.map (fun p =>
          (toLowerCase p.1, if toLowerCase p.1 ∈ D then "[REDACTED]" else p.2)) := by
        have hm := List.mem_map_of_mem (fun p : String × String =>
          (toLowerCase p.1, if toLowerCase p.1 ∈ D then "[REDACTED]" else p.2)) hp
        simpa [hD] using hm
      rw [lookup_eq_some_of_mem_nodup _ _ _ hnd' hmem]
      rfl
    · intro p hp hD
      rw [getHeaders_eq_mergeP, lookup_mergeP, lookup_reverse_of_nodup _ _ hnd']
      have hmem : (toLowerCase p.1, p.2) ∈ H.map (fun p =>
          (toLowerCase p.1, if toLowerCase p.1 ∈ D then "[REDACTED]" else p.2)) := by
        have hm := List.mem_map_of_mem (fun p : String × String =>
          (toLowerCase p.1, if toLowerCase p.1 ∈ D then "[REDACTED]" else p.2)) hp
        simpa [hD] using hm
      rw [lookup_eq_some_of_mem_nodup _ _ _ hnd' hmem]
      rfl

/-- Witness for `getHeaders_spec`: an `authorization` header is redacted and
an unlisted header passes through (Scenario E of the spec). -/
theorem getHeaders_spec_witness :
    (getHeaders [("Authorization", "Bearer x"), ("X-Test", "1")]
      ["authorization"]).lookup "authorization" = some "[REDACTED]" ∧
    (getHeaders [("Authorization", "Bearer x"), ("X-Test", "1")]
      ["authorization"]).lookup "x-test" = some "1" :=
  ⟨((getHeaders_spec [("Authorization", "Bearer x"), ("X-Test", "1")]
        ["authorization"]).2 (by decide)).1
      ("Authorization", "Bearer x") (by decide) (by decide),
   ((getHeaders_spec [("Authorization", "Bearer x"), ("X-Test", "1")]
        ["authorization"]).2 (by decide)).2
      ("X-Test", "1") (by decide) (by decide)⟩

/-- The redaction path list carried by a redact setting. -/
def redactPaths : Option RedactSetting → List String
  | some (.plain paths) => paths
  | some (.withOpts o) => o.paths
  | none => []

/-- C9: the merge of user options over defaults in `createLogger` is shallow.
Any supplied value for a composite key such as `redact` or `serializers`
entirely replaces the corresponding default — in particular
`redact: {paths: ['x']}` discards the whole default redaction path list —
while keys not supplied keep their full default values. -/
theorem createLoggerOptions_shallow_merge (env : Option String) (o : LoggerOptions) :
    (∀ r, o.redact = some r → (createLoggerOptions env o).redact = some r) ∧
    (o.redact = none → (createLoggerOptions env o).redact
      = some (.withOpts { paths := DEFAULT_REDACT_PATHS, remove := some true })) ∧
    (∀ s, o.serializers = some s → (createLoggerOptions env o).serializers = some s) ∧
    (o.serializers = none → (createLoggerOptions env o).serializers
      = some [("error", errorSerializer)]) ∧
    (o.level = none → (createLoggerOptions env o).level = some (DEFAULT_LEVEL env)) ∧
    (o.timestamp = none → (createLoggerOptions env o).timestamp = some true) ∧
    (o.formatters = none → (createLoggerOptions env o).formatters
      = some { levelFormatter := some defaultLevelFormatter }) ∧
    (o.base = none → (createLoggerOptions env o).base = some none) ∧
    (o.messageKey = none → (createLoggerOptions env o).messageKey = some "msg") ∧
    (o.errorKey = none → (createLoggerOptions env o).errorKey = some "error") ∧
    redactPaths (createLoggerOptions env
      { redact := some (.withOpts { paths := ["x"] }) }).redact = ["x"] ∧
    "password" ∉ redactPaths (createLoggerOptions env
      { redact := some (.withOpts { paths := ["x"] }) }).redact := by
  refine ⟨fun r hr => ?_, fun h => ?_, fun s hs => ?_, fun h => ?_, fun h => ?_,
    fun h => ?_, fun h => ?_, fun h => ?_, fun h => ?_, fun h => ?_, rfl,
    by
      rw [show redactPaths (createLoggerOptions env
        { redact := some (.withOpts { paths := ["x"] }) }).redact = ["x"] from rfl]
      decide⟩ <;>
    simp [createLoggerOptions, defaultOptions, *]

/-- Witness for `createLoggerOptions_shallow_merge`: with no options every
default survives in full, and a supplied one-path redact replaces the
default list. -/
theorem createLoggerOptions_shallow_merge_witness :
    (createLoggerOptions none {}).redact
      = some (.withOpts { paths := DEFAULT_REDACT_PATHS, remove := some true }) ∧
    (createLoggerOptions none {}).level = some (DEFAULT_LEVEL none) ∧
    redactPaths (createLoggerOptions none
      { redact := some (.withOpts { paths := ["x"] }) }).redact = ["x"] :=
  ⟨(createLoggerOptions_shallow_merge none {}).2.1 rfl,
   (createLoggerOptions_shallow_merge none {}).2.2.2.2.1 rfl,
   (createLoggerOptions_shallow_merge none {}).2.2.2.2.2.2.2.2.2.2.1⟩

/-- C5: `withContext` composition.  For any log call with payload `f`:
a derived child's entries see (in priority order) the call's own fields,
then the attached context, then the parent's bindings — so every field of
`c1` not overridden by the call appears in the child's entries; the original
logger's entries are characterized without any reference to `c1` (non-mutation:
deriving a child is pure and leaves the original handle's behavior
unchanged), and a genuinely new context key makes the child a different
handle while the original's entries do not contain it; composing twice
merges both contexts with `c2` winning over `c1` on collision. -/
theorem withContext_spec (l : Logger) (c1 c2 f : List (String × PVal)) (k : String) :
    ((entryFields (withContext l c1) f).lookup k
      = jsOr (f.reverse.lookup k) (jsOr (c1.reverse.lookup k) (l.bindings.lookup k))) ∧
    ((entryFields l f).lookup k = jsOr (f.reverse.lookup k) (l.bindings.lookup k)) ∧
    (k ∈ keys c1 → k ∉ keys l.bindings → withContext l c1 ≠ l) ∧
    (k ∈ keys c1 → k ∉ keys l.bindings → k ∉ keys f →
      (entryFields l f).lookup k = none) ∧
    ((entryFields (withContext (withContext l c1) c2) f).lookup k
      = jsOr (f.reverse.lookup k)
          (jsOr (c2.reverse.lookup k)
            (jsOr (c1.reverse.lookup k) (l.bindings.lookup k)))) := by
  refine ⟨?_, ?_, ?_, ?_, ?_⟩
  · show (mergeP (mergeP l.bindings c1) f).lookup k = _
    rw [lookup_mergeP, lookup_mergeP]
  · exact lookup_mergeP l.bindings f k
  · intro h1 h2 heq
    apply h2
    have hb : (withContext l c1).bindings = l.bindings := congrArg Logger.bindings heq
    have hk : k ∈ keys (mergeP l.bindings c1) := (mem_keys_mergeP _ _ _).mpr (Or.inr h1)
    have hb' : (withContext l c1).bindings = mergeP l.bindings c1 := rfl
    rw [hb'.symm, hb] at hk
    exact hk
  · intro h1 h2 h3
    rw [show entryFields l f = mergeP l.bindings f from rfl, lookup_mergeP]
    rw [lookup_eq_none_of_not_mem_keys l.bindings k h2,
      lookup_eq_none_of_not_mem_keys f.reverse k (by simpa using h3)]
    rfl
  · show (mergeP (mergeP (mergeP l.bindings c1) c2) f).lookup k = _
    rw [lookup_mergeP, lookup_mergeP, lookup_mergeP]

/-- Witness for `withContext_spec`: a child sees its context, the parent does
not, the handles differ, and a second context wins on collision. -/
theorem withContext_spec_witness :
    (entryFields (withContext ⟨"info", []⟩ [("userId", PVal.str "456")]) []).lookup "userId"
      = some (PVal.str "456") ∧
    (entryFields (⟨"info", []⟩ : Logger) []).lookup "userId" = none ∧
    withContext ⟨"info", []⟩ [("userId", PVal.str "456")] ≠ (⟨"info", []⟩ : Logger) ∧
    (entryFields (withContext (withContext ⟨"info", []⟩ [("userId", PVal.str "456")])
        [("userId", PVal.str "789")]) []).lookup "userId" = some (PVal.str "789") :=
  ⟨(withContext_spec ⟨"info", []⟩ [("userId", PVal.str "456")]
      [("userId", PVal.str "789")] [] "userId").1,
   (withContext_spec ⟨"info", []⟩ [("userId", PVal.str "456")]
      [("userId", PVal.str "789")] [] "userId").2.2.2.1 (by simp [keys])
     (by simp [keys]) (by simp [keys]),
   (withContext_spec ⟨"info", []⟩ [("userId", PVal.str "456")]
      [("userId", PVal.str "789")] [] "userId").2.2.1 (by simp [keys])
     (by simp [keys]),
   (withContext_spec ⟨"info", []⟩ [("userId", PVal.str "456")]
      [("userId", PVal.str "789")] [] "userId").2.2.2.2⟩

/-- On an error-like object, `errorSerializer` is the base record (`type`,
`message`, conditionally `stack`) with the kept own enumerable fields
assigned over it. -/
theorem errorSerializer_vObj (isInst : Bool) (hn hm hs : Option String)
    (own : List (String × JSValue))
    (h : isError (.vObj isInst hn hm hs own) = true) :
    errorSerializer (.vObj isInst hn hm hs own)
      = mergeP
          (if truthy (propAccess own hs "stack") then
            objInsert [("type", propAccess own hn "name"),
                       ("message", propAccess own hm "message")]
              "stack" (propAccess own hs "stack")
          else [("type", propAccess own hn "name"),
                ("message", propAccess own hm "message")])
          (own.filter (fun p =>
            !(p.1 == "name" || p.1 == "message" || p.1 == "stack"))) := by
  unfold errorSerializer
  rw [h]
  simp only [if_true]
  exact foldl_objInsert_skip _ own _

/-- C4, counterexample: an error-like value with an own enumerable field
named `type` ends up with that field's value under `type`, not the error's
name — the `for...in` copy loop excludes only `name`, `message` and `stack`,
so it overwrites the `type` slot.  Here the error's name is `undefined` but
the serialized `type` is `"custom"`. -/
theorem errorSerializer_type_overridden :
    isError (.vObj false none none none
      [("message", .vStr "m"), ("type", .vStr "custom")]) = true ∧
    errorSerializer (.vObj false none none none
      [("message", .vStr "m"), ("type", .vStr "custom")])
      = [("type", .vStr "custom"), ("message", .vStr "m")] ∧
    propAccess [("message", JSValue.vStr "m"), ("type", JSValue.vStr "custom")]
      none "name" = JSValue.vUndefined ∧
    JSValue.vStr "custom" ≠ JSValue.vUndefined :=
  ⟨rfl, rfl, rfl, fun h => nomatch h⟩

/-- C4 (amended): for every error-like value the serializer returns a
mapping that includes `type` — equal to the error's name unless the value
has an own enumerable field named `type`, whose value then overrides it —
and `message` (the error's message); includes `stack`, holding the error's
stack, exactly when the stack value is truthy (for a string stack: present
and non-empty); and includes every additional own enumerable field except
`name`, `message` and `stack` with its original value.  Every value that is
not error-like serializes to exactly `{error: String(value)}`. -/
theorem errorSerializer_spec :
    (∀ (isInst : Bool) (hn hm hs : Option String) (own : List (String × JSValue)),
      isError (.vObj isInst hn hm hs own) = true →
      (keys own).Nodup →
      ((errorSerializer (.vObj isInst hn hm hs own)).lookup "type"
        = some ((own.lookup "type").getD (propAccess own hn "name"))) ∧
      ((errorSerializer (.vObj isInst hn hm hs own)).lookup "message"
        = some (propAccess own hm "message")) ∧
      ((errorSerializer (.vObj isInst hn hm hs own)).lookup "stack"
        = if truthy (propAccess own hs "stack") then
            some (propAccess own hs "stack") else none) ∧
      (∀ p ∈ own, p.1 ∉ (["name", "message", "stack"] : List String) →
        (errorSerializer (.vObj isInst hn hm hs own)).lookup p.1 = some p.2)) ∧
    (∀ v, isError v = false →
      errorSerializer v = [("error", .vStr (jsString v))]) := by
  constructor
  · intro isInst hn hm hs own h hnd
    rw [errorSerializer_vObj isInst hn hm hs own h]
    set q : (String × JSValue) → Bool :=
      fun p => !(p.1 == "name" || p.1 == "message" || p.1 == "stack") with hq
    set s1 := (if truthy (propAccess own hs "stack") then
        objInsert [("type", propAccess own hn "name"),
                   ("message", propAccess own hm "message")]
          "stack" (propAccess own hs "stack")
      else [("type", propAccess own hn "name"),
            ("message", propAccess own hm "message")]) with hs1
    have hfilnd : (keys (own.filter q)).Nodup := keys_filter_nodup own q hnd
    have htype_s1 : s1.lookup "type" = some (propAccess own hn "name") := by
      rw [hs1]
      cases htr : truthy (propAccess own hs "stack") <;>
        simp [List.lookup]
    have hmsg_s1 : s1.lookup "message" = some (propAccess own hm "message") := by
      rw [hs1]
      cases htr : truthy (propAccess own hs "stack") <;>
        simp [List.lookup]
    have hstk_s1 : s1.lookup "stack"
        = if truthy (propAccess own hs "stack") then
            some (propAccess own hs "stack") else none := by
      rw [hs1]
      cases htr : truthy (propAccess own hs "stack") <;>
        simp [htr, List.lookup]
    refine ⟨?_, ?_, ?_, ?_⟩
    · rw [lookup_mergeP, lookup_reverse_of_nodup _ _ hfilnd,
        lookup_filter_of_kept own q "type" (by intro p hp; simp [hq, hp]),
        htype_s1]
      cases own.lookup "type" <;> simp
    · rw [lookup_mergeP,
        lookup_eq_none_of_not_mem_keys _ _
          (by
            rw [keys_reverse]
            simpa using not_mem_keys_filter own q "message"
              (by intro p hp; simp [hq, hp])),
        jsOr_none, hmsg_s1]
    · rw [lookup_mergeP,
        lookup_eq_none_of_not_mem_keys _ _
          (by
            rw [keys_reverse]
            simpa using not_mem_keys_filter own q "stack"
              (by intro p hp; simp [hq, hp])),
        jsOr_none, hstk_s1]
    · intro p hp hex
      have hq_p : q p = true := by
        simp only [List.mem_cons, List.mem_singleton, not_or] at hex
        simp [hq, hex.1, hex.2.1, hex.2.2]
      have hpfil : p ∈ own.filter q := List.mem_filter.mpr ⟨hp, hq_p⟩
      rw [lookup_mergeP, lookup_reverse_of_nodup _ _ hfilnd,
        lookup_eq_some_of_mem_nodup _ _ _ hfilnd
          (by rw [← Prod.mk.eta (p := p)] at hpfil; exact hpfil)]
      rfl
  · intro v hv
    unfold errorSerializer
    rw [hv]
    cases v <;> simp

/-- Witness for `errorSerializer_spec` on a native error with an extra
`code` field (the repository's own test vector) and on the non-error `42`. -/
theorem errorSerializer_spec_witness :
    (errorSerializer (.vObj true (some "Error") (some "test error")
        (some "stacktrace") [("code", .vStr "CUSTOM_ERROR")])).lookup "type"
      = some (.vStr "Error") ∧
    (errorSerializer (.vObj true (some "Error") (some "test error")
        (some "stacktrace") [("code", .vStr "CUSTOM_ERROR")])).lookup "message"
      = some (.vStr "test error") ∧
    (errorSerializer (.vObj true (some "Error") (some "test error")
        (some "stacktrace") [("code", .vStr "CUSTOM_ERROR")])).lookup "stack"
      = some (.vStr "stacktrace") ∧
    (errorSerializer (.vObj true (some "Error") (some "test error")
        (some "stacktrace") [("code", .vStr "CUSTOM_ERROR")])).lookup "code"
      = some (.vStr "CUSTOM_ERROR") ∧
    errorSerializer (.vNum 42) = [("error", .vStr "42")] := by
  have h := errorSerializer_spec
  have hmain := h.1 true (some "Error") (some "test error") (some "stacktrace")
    [("code", JSValue.vStr "CUSTOM_ERROR")] rfl (by simp [keys])
  exact ⟨hmain.1, hmain.2.1, hmain.2.2.1,
    hmain.2.2.2 ("code", JSValue.vStr "CUSTOM_ERROR") (by simp) (by decide),
    h.2 (.vNum 42) rfl⟩

/-- C1: per request, the middleware's log-call trace (in program order) is
exactly one `info` "Incoming request" entry — emitted first, before the
downstream continuation is awaited — followed by exactly one terminal entry:
on a normal return an `info` "Request completed" entry (optionally preceded
by the slow-request warning), on a throw an `error` "Request failed" entry.
Never both terminal entries, never zero. -/
theorem middleware_log_discipline (cfg : MwConfig) (c : ReqCtx)
    (startTime endTime statusAfterNext : Nat) (outcome : NextOutcome) :
    match outcome with
    | .ok =>
      (runMiddleware cfg c startTime endTime statusAfterNext .ok).logs
        = [⟨.info, requestLogContext cfg c, "Incoming request"⟩,
           ⟨.info, responseLogContext cfg c statusAfterNext
               (formatDuration startTime endTime), "Request completed"⟩] ∨
      (runMiddleware cfg c startTime endTime statusAfterNext .ok).logs
        = [⟨.info, requestLogContext cfg c, "Incoming request"⟩,
           ⟨.warn, [("duration", .num (formatDuration startTime endTime)),
                    ("threshold", .num (effectiveThreshold cfg))],
             "Slow request detected"⟩,
           ⟨.info, responseLogContext cfg c statusAfterNext
               (formatDuration startTime endTime), "Request completed"⟩]
    | .threw e =>
      (runMiddleware cfg c startTime endTime statusAfterNext (.threw e)).logs
        = [⟨.info, requestLogContext cfg c, "Incoming request"⟩,
           ⟨.error, errorLogContext cfg c e
               (if statusAfterNext == 0 || statusAfterNext < 400 then 500
                else statusAfterNext)
               (formatDuration startTime endTime), "Request failed"⟩] := by
  cases outcome with
  | ok =>
    by_cases hslow : formatDuration startTime endTime > effectiveThreshold cfg
    · right
      simp only [runMiddleware]
      rw [if_pos hslow]
      rfl
    · left
      simp only [runMiddleware]
      rw [if_neg hslow]
      rfl
  | threw e => rfl

/-- C2: when the downstream continuation throws, the middleware forces the
response status to 500 exactly when it was unset (0) or below 400, emits —
absent a custom error formatter — exactly one `error`-level entry whose
payload is `{err, duration, status, method, path}` with the forced status,
and re-raises the original error value unchanged; it never swallows the
error. -/
theorem middleware_error_path (cfg : MwConfig) (c : ReqCtx)
    (startTime endTime statusAfterNext : Nat) (e : JSValue)
    (hfmt : cfg.formatError = none) :
    (runMiddleware cfg c startTime endTime statusAfterNext (.threw e)).thrown
      = some e ∧
    (runMiddleware cfg c startTime endTime statusAfterNext (.threw e)).finalStatus
      = (if statusAfterNext == 0 || statusAfterNext < 400 then 500
         else statusAfterNext) ∧
    (runMiddleware cfg c startTime endTime statusAfterNext (.threw e)).logs
      = [⟨.info, requestLogContext cfg c, "Incoming request"⟩,
         ⟨.error,
          [("err", .js e),
           ("duration", .num (formatDuration startTime endTime)),
           ("status", .num (((if statusAfterNext == 0 || statusAfterNext < 400
              then 500 else statusAfterNext) : Nat) : ℚ)),
           ("method", .str c.method), ("path", .str c.path)],
          "Request failed"⟩] := by
  refine ⟨rfl, rfl, ?_⟩
  have hlogs : (runMiddleware cfg c startTime endTime statusAfterNext (.threw e)).logs
      = [⟨.info, requestLogContext cfg c, "Incoming request"⟩,
         ⟨.error, errorLogContext cfg c e
            (if statusAfterNext == 0 || statusAfterNext < 400 then 500
             else statusAfterNext)
            (formatDuration startTime endTime), "Request failed"⟩] := rfl
  rw [hlogs]
  simp [errorLogContext, hfmt]

/-- Witness for `middleware_error_path`: a throw over a 200 response yields
a forced 500 and the re-raised error. -/
theorem middleware_error_path_witness :
    (runMiddleware {} ⟨"GET", "http://h/users", "/users", [], []⟩ 0 5000000 200
      (.threw (.vStr "boom"))).thrown = some (.vStr "boom") ∧
    (runMiddleware {} ⟨"GET", "http://h/users", "/users", [], []⟩ 0 5000000 200
      (.threw (.vStr "boom"))).finalStatus = 500 :=
  ⟨(middleware_error_path {} ⟨"GET", "http://h/users", "/users", [], []⟩
      0 5000000 200 (.vStr "boom") rfl).1,
   (middleware_error_path {} ⟨"GET", "http://h/users", "/users", [], []⟩
      0 5000000 200 (.vStr "boom") rfl).2.1⟩

/-- C6: on the successful-completion path, the middleware emits exactly one
`warn` entry with payload `{duration, threshold}` and message
"Slow request detected" — in addition to, not replacing, the `info`
"Request completed" entry — exactly when the elapsed milliseconds strictly
exceed the effective slow-request threshold, which defaults to 1000 when the
configuration does not supply one; otherwise no warn entry is emitted. -/
theorem middleware_slow_warning (cfg : MwConfig) (c : ReqCtx)
    (startTime endTime statusAfterNext : Nat) :
    (cfg.slowRequestThreshold = none → effectiveThreshold cfg = 1000) ∧
    (formatDuration startTime endTime > effectiveThreshold cfg →
      (runMiddleware cfg c startTime endTime statusAfterNext .ok).logs
        = [⟨.info, requestLogContext cfg c, "Incoming request"⟩,
           ⟨.warn, [("duration", .num (formatDuration startTime endTime)),
                    ("threshold", .num (effectiveThreshold cfg))],
             "Slow request detected"⟩,
           ⟨.info, responseLogContext cfg c statusAfterNext
               (formatDuration startTime endTime), "Request completed"⟩]) ∧
    (¬ formatDuration startTime endTime > effectiveThreshold cfg →
      (runMiddleware cfg c startTime endTime statusAfterNext .ok).logs
        = [⟨.info, requestLogContext cfg c, "Incoming request"⟩,
           ⟨.info, responseLogContext cfg c statusAfterNext
               (formatDuration startTime endTime), "Request completed"⟩]) := by
  refine ⟨fun h => by simp [effectiveThreshold, h, Hono.defaultOptions],
    fun h => ?_, fun h => ?_⟩
  · simp only [runMiddleware]
    rw [if_pos h]
    rfl
  · simp only [runMiddleware]
    rw [if_neg h]
    rfl

/-- Witness for `middleware_slow_warning`: a 10ms request against a 1ms
threshold warns (Scenario D), and the unset threshold defaults to 1000. -/
theorem middleware_slow_warning_witness :
    effectiveThreshold {} = 1000 ∧
    (runMiddleware { slowRequestThreshold := some 1 }
        ⟨"GET", "http://h/u", "/u", [], []⟩ 0 10000000 200 .ok).logs
      = [⟨.info, requestLogContext { slowRequestThreshold := some 1 }
            ⟨"GET", "http://h/u", "/u", [], []⟩, "Incoming request"⟩,
         ⟨.warn, [("duration", .num (formatDuration 0 10000000)),
                  ("threshold", .num (effectiveThreshold
                    { slowRequestThreshold := some 1 }))],
           "Slow request detected"⟩,
         ⟨.info, responseLogContext { slowRequestThreshold := some 1 }
             ⟨"GET", "http://h/u", "/u", [], []⟩ 200
             (formatDuration 0 10000000), "Request completed"⟩] :=
  ⟨(middleware_slow_warning {} ⟨"GET", "http://h/u", "/u", [], []⟩ 0 0 200).1 rfl,
   (middleware_slow_warning { slowRequestThreshold := some 1 }
      ⟨"GET", "http://h/u", "/u", [], []⟩ 0 10000000 200).2.1
     (by norm_num [formatDuration, effectiveThreshold])⟩

end Bunanza
